import Mathlib

/-!
Shallow embedding of the travel-entry persistent store
(`src/components/utilities` storage module): the entry validator
(`validateEntry`, `validateEntries`) and the store operations
(`saveEntry`, `getEntries`, `getEntryById`, `removeEntry`, `updateEntry`,
`clearAllEntries`, `getEntryCount`) built over an asynchronous string
key-value backend (AsyncStorage).

Modelling choices:
* JSON runtime values are the inductive `Json`; JavaScript `typeof` and
  truthiness are modelled by `jsTypeof` and `Json.isFalsy` (note
  `typeof null` is the string "object" and arrays also have `typeof`
  "object", as in JavaScript).
* Numbers are integers: no claim depends on float arithmetic, and
  `createdAt` is specified as an integer millisecond count.
* The backend holds an optional raw string under the entries key.  Raw
  strings are modelled by `Raw`: either the serialization of a JSON value
  (`JSON.stringify` output, which parses back to the value it came from)
  or a string that is not valid JSON.  `JSON.parse` is `parseRaw` and can
  fail; `JSON.stringify` is `Raw.json`.
* Store operations run in the monad `M`: a backend `Behavior` chooses, per
  call, whether each `getItem` / `setItem` / `removeItem` succeeds or
  raises a fault, and what a `getItem` answers (so arbitrary, even
  undecodable, data is covered).  `honest` is the fault-free behaviour
  that answers reads with the stored value.
* Exceptions (`throw` in the source) are the `Except.error` component of
  `M`; `tryCatch` is the `try`/`catch` of the source.
-/

namespace TravelDiary

/-- JSON-like runtime values (the decoded values the validator receives). -/
inductive Json where
  | null
  | bool (b : Bool)
  | num (n : Int)
  | str (s : String)
  | arr (elems : List Json)
  | obj (fields : List (String × Json))

/-- JavaScript `typeof`: `null` and arrays answer "object" like records do. -/
def jsTypeof : Json → String
  | .null => "object"
  | .bool _ => "boolean"
  | .num _ => "number"
  | .str _ => "string"
  | .arr _ => "object"
  | .obj _ => "object"

/-- JavaScript truthiness: `null`, `false`, `0` and `""` are falsy. -/
def Json.isFalsy : Json → Bool
  | .null => true
  | .bool b => !b
  | .num n => n == 0
  | .str s => s == ""
  | .arr _ => false
  | .obj _ => false

/-- First binding of a key in an object's field list. -/
def lookupField : List (String × Json) → String → Option Json
  | [], _ => none
  | (k, v) :: rest, key => if k == key then some v else lookupField rest key

/-- Property access `value[key]`: `none` models JavaScript `undefined`. -/
def getField : Json → String → Option Json
  | .obj fields, key => lookupField fields key
  | _, _ => none

/-- `typeof value[key]`: "undefined" for a missing property. -/
def typeofProp : Option Json → String
  | none => "undefined"
  | some j => jsTypeof j

/-- Property assignment on the field list: overwrite the first binding in
place, or append a new one. -/
def setFieldList : List (String × Json) → String → Json → List (String × Json)
  | [], key, v => [(key, v)]
  | (k, w) :: rest, key, v =>
    if k == key then (key, v) :: rest else (k, w) :: setFieldList rest key v

/-- Property assignment `value[key] = v` (a no-op on non-records, which the
store never does). -/
def setField : Json → String → Json → Json
  | .obj fields, key, v => .obj (setFieldList fields key v)
  | j, _, _ => j

/-- `Array.isArray`. -/
def Json.isArr : Json → Bool
  | .arr _ => true
  | _ => false

/-- The required fields of a travel entry with their `typeof` names, exactly
the table in the source validator. -/
def requiredFields : List (String × String) :=
  [("id", "string"), ("imageUri", "string"), ("address", "string"),
   ("latitude", "number"), ("longitude", "number"), ("createdAt", "number")]

/-- Check on an optional property: absent is fine, present must pass. -/
def optOK (v : Option Json) (check : Json → Bool) : Bool :=
  match v with
  | none => true
  | some j => check j

/-- `validateEntry`: falsy or non-"object" values fail; each required field
must have the required `typeof`; optional `title` and `notes` must be
strings when present, `tags` an array when present, and `weather` must have
`typeof` "object" when present (which, as in the source, also admits `null`
and arrays). -/
def validateEntry (entry : Json) : Bool :=
  if entry.isFalsy || jsTypeof entry != "object" then false
  else if !(requiredFields.all fun f => typeofProp (getField entry f.1) == f.2) then false
  else
    optOK (getField entry "title") (fun t => jsTypeof t == "string") &&
    optOK (getField entry "notes") (fun t => jsTypeof t == "string") &&
    optOK (getField entry "tags") (fun t => t.isArr) &&
    optOK (getField entry "weather") (fun t => jsTypeof t == "object")

/-- `validateEntries`: an array whose every element passes `validateEntry`. -/
def validateEntries : Json → Bool
  | .arr entries => entries.all validateEntry
  | _ => false

/-- The `id` field of an entry when it is a string.  The store compares ids
only on values that passed `validateEntry`, whose `id` is a string, so `==`
on the results coincides with JavaScript strict equality at every call
site. -/
def idOf (e : Json) : Option String :=
  match getField e "id" with
  | some (.str s) => some s
  | _ => none

/-- The `createdAt` field of an entry; the store reads it only on validated
entries, where it is a number. -/
def createdAtOf (e : Json) : Int :=
  match getField e "createdAt" with
  | some (.num n) => n
  | _ => 0

/-- Stable insertion of an entry into a list sorted by `createdAt`
descending: the entry goes in front of the first element whose `createdAt`
does not exceed it, so earlier elements win ties. -/
def insertEntry (x : Json) : List Json → List Json
  | [] => [x]
  | y :: rest =>
    if createdAtOf y ≤ createdAtOf x then x :: y :: rest else y :: insertEntry x rest

/-- The sort `entries.sort((a, b) => b.createdAt - a.createdAt)`: the
stable sort placing larger `createdAt` first (JavaScript `sort` is
specified stable, and a stable sort's output is unique, so any stable
implementation is the same function). -/
def sortEntries : List Json → List Json
  | [] => []
  | x :: rest => insertEntry x (sortEntries rest)

/-- The elements of a JSON array (the source reaches this point only after
`validateEntries` has established the value is an array). -/
def asArray : Json → List Json
  | .arr elems => elems
  | _ => []

/-- A raw string under the backend key: either `JSON.stringify` output
(which parses back to the value it serializes) or a string that is not
valid JSON. -/
inductive Raw where
  | json (j : Json)
  | garbage (s : String)

/-- Whether the raw string is the empty string (`JSON.stringify` never
produces it). -/
def Raw.isEmptyStr : Raw → Bool
  | .json _ => false
  | .garbage s => s == ""

/-- `JSON.parse`. -/
def parseRaw : Raw → Except String Json
  | .json j => .ok j
  | .garbage _ => .error "Unexpected token in JSON"

/-- Response of one backend call: success or a raised fault. -/
inductive BResp (α : Type) where
  | ok (a : α)
  | fault (msg : String)

/-- One behaviour of the asynchronous key-value backend: for the n-th call
of each kind, whether it succeeds or faults, and what a read answers (the
read is shown the stored value but may answer anything, covering stale or
undecodable data). -/
structure Behavior where
  onGet : Nat → Option Raw → BResp (Option Raw)
  onSet : Nat → BResp Unit
  onRemove : Nat → BResp Unit

/-- Backend state: the value under the entries key plus call counters that
drive the behaviour. -/
structure BState where
  store : Option Raw
  gets : Nat
  sets : Nat
  removes : Nat

/-- The store's effect monad: exceptions plus backend state, driven by a
behaviour. -/
abbrev M (α : Type) : Type := Behavior → BState → Except String α × BState

instance : Monad M where
  pure a := fun _ s => (.ok a, s)
  bind x f := fun b s =>
    match x b s with
    | (.ok a, s') => f a b s'
    | (.error e, s') => (.error e, s')

/-- `throw new Error msg`. -/
def throwM {α : Type} (msg : String) : M α := fun _ s => (.error msg, s)

/-- `try body catch handler`. -/
def tryCatch {α : Type} (body : M α) (handler : String → M α) : M α := fun b s =>
  match body b s with
  | (.ok a, s') => (.ok a, s')
  | (.error e, s') => handler e b s'

/-- `AsyncStorage.getItem(StorageKeys.ENTRIES)`. -/
def getItem : M (Option Raw) := fun b s =>
  match b.onGet s.gets s.store with
  | .ok v => (.ok v, { s with gets := s.gets + 1 })
  | .fault e => (.error e, { s with gets := s.gets + 1 })

/-- `AsyncStorage.setItem(StorageKeys.ENTRIES, v)`. -/
def setItem (v : Raw) : M Unit := fun b s =>
  match b.onSet s.sets with
  | .ok _ => (.ok (), { s with sets := s.sets + 1, store := some v })
  | .fault e => (.error e, { s with sets := s.sets + 1 })

/-- `AsyncStorage.removeItem(StorageKeys.ENTRIES)`. -/
def removeItem : M Unit := fun b s =>
  match b.onRemove s.removes with
  | .ok _ => (.ok (), { s with removes := s.removes + 1, store := none })
  | .fault e => (.error e, { s with removes := s.removes + 1 })

/-- The fault-free backend behaviour: every call succeeds and every read
answers with the stored value. -/
def honest : Behavior :=
  ⟨fun _ v => .ok v, fun _ => .ok (), fun _ => .ok ()⟩

/-- The behaviour in which every backend call raises a fault. -/
def allFault : Behavior :=
  ⟨fun _ _ => .fault "io", fun _ => .fault "io", fun _ => .fault "io"⟩

/-- `getEntries`: read the raw value; absent or empty means no entries; a
parse fault is caught and yields `[]`; a decoded value failing
`validateEntries` yields `[]`; otherwise the array sorted by `createdAt`
descending. -/
def getEntries : M (List Json) :=
  tryCatch
    (do
      let entriesString ← getItem
      match entriesString with
      | none => pure []
      | some raw =>
        if raw.isEmptyStr then pure []
        else
          match parseRaw raw with
          | .error e => throwM e
          | .ok parsedData =>
            if !validateEntries parsedData then pure []
            else pure (sortEntries (asArray parsedData)))
    (fun _ => pure [])

/-- The value the caller's `entry` record holds after `saveEntry` returns:
the source assigns `entry.id = ...` in place on the caller's own object
when the requested id collides with a stored one. -/
def entryAfterSave (entry : Json) (freshId : String) (existingEntries : List Json) : Json :=
  if existingEntries.any fun e => idOf e == idOf entry then
    setField entry "id" (.str freshId)
  else entry

/-- `saveEntry`: validate, read, regenerate the id on collision (`freshId`
stands for the id the source derives from the current timestamp and a
random suffix), append, write, then re-read and verify the (possibly
regenerated) id is present. -/
def saveEntry (entry : Json) (freshId : String) : M Bool :=
  tryCatch
    (do
      if !validateEntry entry then throwM "Invalid entry data structure"
      else do
        let existingEntries ← getEntries
        let entry1 := entryAfterSave entry freshId existingEntries
        let updatedEntries := existingEntries ++ [entry1]
        _ ← setItem (.json (.arr updatedEntries))
        let currentEntries ← getEntries
        let wasSaved := currentEntries.any fun e => idOf e == idOf entry1
        if !wasSaved then pure false
        else pure true)
    (fun _ => pure false)

/-- `getEntryById`: first entry of `getEntries` whose `id` matches, else
`null` (`entry || null` maps a falsy find result to `null`). -/
def getEntryById (id : String) : M (Option Json) :=
  tryCatch
    (do
      let entries ← getEntries
      match entries.find? (fun e => idOf e == some id) with
      | some entry => pure (if entry.isFalsy then none else some entry)
      | none => pure none)
    (fun _ => pure none)

/-- `removeEntry`: an empty id throws; a missing id returns false with no
write; otherwise filter it out, write, re-read and verify it is gone. -/
def removeEntry (id : String) : M Bool :=
  tryCatch
    (do
      if id == "" then throwM "Invalid entry ID"
      else do
        let existingEntries ← getEntries
        let entryExists := existingEntries.any fun entry => idOf entry == some id
        if !entryExists then pure false
        else do
          let updatedEntries := existingEntries.filter fun entry => !(idOf entry == some id)
          _ ← setItem (.json (.arr updatedEntries))
          let currentEntries ← getEntries
          let wasRemoved := !(currentEntries.any fun entry => idOf entry == some id)
          if !wasRemoved then pure false
          else pure true)
    (fun _ => pure false)

/-- `updateEntry`: validate, find the index by `id` (absent means false, no
upsert), replace in place, write, then verify an entry with matching `id`
and `createdAt` exists. -/
def updateEntry (updatedEntry : Json) : M Bool :=
  tryCatch
    (do
      if !validateEntry updatedEntry then throwM "Invalid entry data structure"
      else do
        let existingEntries ← getEntries
        match existingEntries.findIdx? (fun e => idOf e == idOf updatedEntry) with
        | none => pure false
        | some entryIndex => do
          let newEntries := existingEntries.set entryIndex updatedEntry
          _ ← setItem (.json (.arr newEntries))
          let currentEntries ← getEntries
          let updatedInStorage := currentEntries.any fun e =>
            idOf e == idOf updatedEntry && createdAtOf e == createdAtOf updatedEntry
          if !updatedInStorage then pure false
          else pure true)
    (fun _ => pure false)

/-- `clearAllEntries`: remove the key, then verify the collection reads
back empty. -/
def clearAllEntries : M Bool :=
  tryCatch
    (do
      _ ← removeItem
      let currentEntries ← getEntries
      if currentEntries.length > 0 then pure false
      else pure true)
    (fun _ => pure false)

/-- `getEntryCount`: length of `getEntries`. -/
def getEntryCount : M Nat :=
  tryCatch
    (do
      let entries ← getEntries
      pure entries.length)
    (fun _ => pure 0)

/-- The empty starting state: nothing stored, no backend calls made. -/
def emptyState : BState := ⟨none, 0, 0, 0⟩

/-- The collection `getEntries` decodes from a raw stored value when the
backend answers honestly: absent or empty raw means `[]`, unparsable or
invalid data means `[]`, otherwise the array sorted by `createdAt`
descending.  `getEntries honest` returns exactly this (see
`getEntries_honest`). -/
def decodeList : Option Raw → List Json
  | none => []
  | some raw =>
    if raw.isEmptyStr then []
    else
      match parseRaw raw with
      | .error _ => []
      | .ok parsedData =>
        if !validateEntries parsedData then []
        else sortEntries (asArray parsedData)

/-- Run a sequence of `saveEntry` calls (each with its generated fresh id)
under the fault-free behaviour, threading the backend state. -/
def runSaves : List (Json × String) → BState → BState
  | [], s => s
  | (e, f) :: rest, s => runSaves rest (saveEntry e f honest s).2

/-- Formalization of the spec's phrase "structured record": a JSON object. -/
def Json.isRecord : Json → Bool
  | .obj _ => true
  | _ => false

/-- A valid sample entry. -/
def entryA : Json := .obj [("id", .str "a"), ("imageUri", .str "u"), ("address", .str "addr"),
  ("latitude", .num 1), ("longitude", .num 2), ("createdAt", .num 1000)]

/-- A valid sample entry with a different id and later `createdAt`. -/
def entryB : Json := .obj [("id", .str "b"), ("imageUri", .str "u2"), ("address", .str "addr2"),
  ("latitude", .num 3), ("longitude", .num 4), ("createdAt", .num 2000)]

/-- A valid entry whose requested id has the exact shape of an id the
source generates (`entry_` + base-36 timestamp + `_` + random suffix). -/
def entryGen : Json := .obj [("id", .str "entry_k5z_abc123xyz"), ("imageUri", .str "u3"),
  ("address", .str "addr3"), ("latitude", .num 5), ("longitude", .num 6),
  ("createdAt", .num 3000)]

/-- A different valid entry carrying the same generated-shape id as
`entryGen`. -/
def entryGen2 : Json := .obj [("id", .str "entry_k5z_abc123xyz"), ("imageUri", .str "u4"),
  ("address", .str "addr4"), ("latitude", .num 7), ("longitude", .num 8),
  ("createdAt", .num 500)]

/-- A value with every required field and `weather` present but `null`. -/
def entryWeatherNull : Json := .obj [("id", .str "w"), ("imageUri", .str "u"),
  ("address", .str "addr"), ("latitude", .num 1), ("longitude", .num 2),
  ("createdAt", .num 1000), ("weather", .null)]

/-! ### Basic lemmas about the effect monad -/

theorem M.bind_apply {α β : Type} (x : M α) (f : α → M β) (b : Behavior) (s : BState) :
    (x >>= f) b s =
      match x b s with
      | (.ok a, s') => f a b s'
      | (.error e, s') => (.error e, s') := rfl

theorem M.pure_apply {α : Type} (a : α) (b : Behavior) (s : BState) :
    (pure a : M α) b s = (.ok a, s) := rfl

theorem getItem_honest (s : BState) :
    getItem honest s = (.ok s.store, { s with gets := s.gets + 1 }) := rfl

theorem setItem_honest (v : Raw) (s : BState) :
    setItem v honest s = (.ok (), { s with sets := s.sets + 1, store := some v }) := rfl

theorem removeItem_honest (s : BState) :
    removeItem honest s = (.ok (), { s with removes := s.removes + 1, store := none }) := rfl

/-- Under the fault-free behaviour, `getEntries` returns exactly the decoded
collection and only bumps the read counter. -/
theorem getEntries_honest (s : BState) :
    getEntries honest s = (.ok (decodeList s.store), { s with gets := s.gets + 1 }) := by
  rcases s with ⟨store, g, st, r⟩
  match store with
  | none => rfl
  | some (.json j) =>
    simp only [getEntries, tryCatch, M.bind_apply, getItem_honest, decodeList,
      Raw.isEmptyStr, parseRaw]
    by_cases hv : validateEntries j
    · simp [hv, M.pure_apply]
    · simp [hv, M.pure_apply]
  | some (.garbage msg) =>
    simp only [getEntries, tryCatch, M.bind_apply, getItem_honest, decodeList, Raw.isEmptyStr,
      parseRaw]
    by_cases he : msg == ""
    · simp [he, M.pure_apply]
    · simp [he, M.pure_apply, throwM]

/-! ### Lemmas about sorting and validated entries -/

theorem insertEntry_perm (x : Json) (l : List Json) : (insertEntry x l).Perm (x :: l) := by
  induction l with
  | nil => simp [insertEntry]
  | cons y rest ih =>
    unfold insertEntry
    by_cases hc : createdAtOf y ≤ createdAtOf x
    · simp [hc]
    · simp only [hc, if_false]
      exact (ih.cons y).trans (List.Perm.swap x y rest)

theorem sortEntries_perm (l : List Json) : (sortEntries l).Perm l := by
  induction l with
  | nil => simp [sortEntries]
  | cons x rest ih =>
    unfold sortEntries
    exact (insertEntry_perm x (sortEntries rest)).trans (ih.cons x)

theorem mem_sortEntries {x : Json} {l : List Json} : x ∈ sortEntries l ↔ x ∈ l :=
  (sortEntries_perm l).mem_iff

theorem insertEntry_sorted {x : Json} {l : List Json}
    (h : l.Pairwise fun a b => createdAtOf b ≤ createdAtOf a) :
    (insertEntry x l).Pairwise fun a b => createdAtOf b ≤ createdAtOf a := by
  induction l with
  | nil => simp [insertEntry]
  | cons y rest ih =>
    obtain ⟨hy, hrest⟩ := List.pairwise_cons.mp h
    unfold insertEntry
    by_cases hc : createdAtOf y ≤ createdAtOf x
    · simp only [hc, if_true]
      refine List.pairwise_cons.mpr ⟨?_, h⟩
      intro z hz
      rcases List.mem_cons.mp hz with rfl | hz'
      · exact hc
      · exact le_trans (hy z hz') hc
    · simp only [hc, if_false]
      refine List.pairwise_cons.mpr ⟨?_, ih hrest⟩
      intro z hz
      rcases List.mem_cons.mp (((insertEntry_perm x rest).mem_iff).mp hz) with rfl | hz'
      · exact le_of_lt (lt_of_not_ge hc)
      · exact hy z hz'  

theorem sortEntries_sorted (l : List Json) :
    (sortEntries l).Pairwise fun x y => createdAtOf y ≤ createdAtOf x := by
  induction l with
  | nil => simp [sortEntries]
  | cons x rest ih =>
    unfold sortEntries
    exact insertEntry_sorted ih

/-- Everything `decodeList` returns passed `validateEntry`. -/
theorem decodeList_validated {r : Option Raw} {x : Json} (hx : x ∈ decodeList r) :
    validateEntry x = true := by
  match r with
  | none => simp [decodeList] at hx
  | some (.garbage msg) =>
    by_cases he : msg == "" <;> simp [decodeList, Raw.isEmptyStr, parseRaw, he] at hx
  | some (.json j) =>
    by_cases hv : validateEntries j
    · simp only [decodeList, Raw.isEmptyStr, parseRaw, hv, Bool.not_true, Bool.false_eq_true,
        if_false, if_true] at hx
      rw [mem_sortEntries] at hx
      match j, hv with
      | .arr es, hv =>
        simp only [validateEntries, List.all_eq_true] at hv
        exact hv x (by simpa [asArray] using hx)
    · simp [decodeList, Raw.isEmptyStr, parseRaw, hv] at hx

/-- A value that passes `validateEntry` is a record (an object). -/
theorem validated_isObj {e : Json} (h : validateEntry e = true) : ∃ fs, e = .obj fs := by
  match e with
  | .obj fs => exact ⟨fs, rfl⟩
  | .null | .bool _ | .num _ | .str _ | .arr _ =>
    simp [validateEntry, Json.isFalsy, jsTypeof, requiredFields, getField, typeofProp] at h

/-- A value that passes `validateEntry` is truthy. -/
theorem validated_not_falsy {e : Json} (h : validateEntry e = true) : e.isFalsy = false := by
  by_contra hc
  simp only [Bool.not_eq_false] at hc
  simp [validateEntry, hc] at h

/-- A validated entry has a string `id`. -/
theorem validated_id_str {e : Json} (h : validateEntry e = true) :
    ∃ s, getField e "id" = some (.str s) := by
  unfold validateEntry at h
  split at h
  · exact absurd h (by simp)
  · split at h
    · exact absurd h (by simp)
    · rename_i hreq
      have hreq' : (requiredFields.all fun f => typeofProp (getField e f.1) == f.2) = true := by
        revert hreq
        cases requiredFields.all fun f => typeofProp (getField e f.1) == f.2 <;> simp
      clear hreq
      simp only [requiredFields, List.all_cons, Bool.and_eq_true, beq_iff_eq] at hreq'
      rename' hreq' => hreq
      obtain ⟨hid, -⟩ := hreq
      match hfld : getField e "id" with
      | none => rw [hfld] at hid; simp [typeofProp] at hid
      | some v =>
        rw [hfld] at hid
        match v with
        | .str s => exact ⟨s, rfl⟩
        | .null | .bool _ | .num _ | .arr _ | .obj _ => simp [typeofProp, jsTypeof] at hid

/-- A validated entry's `idOf` is the string under its `id` field. -/
theorem idOf_validated {e : Json} (h : validateEntry e = true) : ∃ s, idOf e = some s := by
  obtain ⟨s, hs⟩ := validated_id_str h
  exact ⟨s, by simp [idOf, hs]⟩

/-! ### Property assignment lemmas -/

theorem lookupField_setFieldList_same (fs : List (String × Json)) (key : String) (v : Json) :
    lookupField (setFieldList fs key v) key = some v := by
  induction fs with
  | nil => simp [setFieldList, lookupField]
  | cons p rest ih =>
    obtain ⟨pk, pv⟩ := p
    by_cases hpk : pk == key
    · simp [setFieldList, hpk, lookupField]
    · simp [setFieldList, hpk, lookupField, ih]

theorem lookupField_setFieldList_other (fs : List (String × Json)) (key k : String) (v : Json)
    (hk : k ≠ key) : lookupField (setFieldList fs key v) k = lookupField fs k := by
  induction fs with
  | nil => simp [setFieldList, lookupField, Ne.symm hk]
  | cons p rest ih =>
    obtain ⟨pk, pv⟩ := p
    by_cases hpk : pk == key
    · have hpk' : pk = key := by simpa using hpk
      subst hpk'
      simp [setFieldList, lookupField, Ne.symm hk]
    · simp [setFieldList, hpk, lookupField, ih]

theorem getField_setField_same (fs : List (String × Json)) (key : String) (v : Json) :
    getField (setField (.obj fs) key v) key = some v := by
  simp [setField, getField, lookupField_setFieldList_same]

theorem getField_setField_other (fs : List (String × Json)) (key k : String) (v : Json)
    (hk : k ≠ key) : getField (setField (.obj fs) key v) k = getField (.obj fs) k := by
  simp [setField, getField, lookupField_setFieldList_other fs key k v hk]

/-- `validateEntry` on a record, with the truthiness and `typeof` guards
reduced away. -/
theorem validateEntry_obj (fs : List (String × Json)) :
    validateEntry (.obj fs) =
      (if !(requiredFields.all fun f => typeofProp (getField (.obj fs) f.1) == f.2) then false
       else
        (optOK (getField (.obj fs) "title") fun t => jsTypeof t == "string") &&
        (optOK (getField (.obj fs) "notes") fun t => jsTypeof t == "string") &&
        (optOK (getField (.obj fs) "tags") fun t => t.isArr) &&
        (optOK (getField (.obj fs) "weather") fun t => jsTypeof t == "object")) := by
  simp [validateEntry, Json.isFalsy, jsTypeof]

/-- Reassigning the `id` of a validated entry to a string keeps it valid. -/
theorem validate_setField_id {e : Json} (f : String) (h : validateEntry e = true) :
    validateEntry (setField e "id" (.str f)) = true := by
  obtain ⟨fs, rfl⟩ := validated_isObj h
  rw [validateEntry_obj] at h
  by_cases hreq : (requiredFields.all fun fd => typeofProp (getField (.obj fs) fd.1) == fd.2)
  · simp only [hreq, Bool.not_true, Bool.false_eq_true, if_false, if_true] at h
    have hobj : ∃ gs, setField (.obj fs) "id" (.str f) = .obj gs := ⟨_, rfl⟩
    obtain ⟨gs, hgs⟩ := hobj
    rw [hgs, validateEntry_obj, ← hgs]
    have hid : getField (setField (.obj fs) "id" (.str f)) "id" = some (.str f) :=
      getField_setField_same fs "id" (.str f)
    have hothers : ∀ k : String, k ≠ "id" →
        getField (setField (.obj fs) "id" (.str f)) k = getField (.obj fs) k :=
      fun k hk => getField_setField_other fs "id" k (.str f) hk
    simp only [requiredFields, List.all_cons, List.all_nil, Bool.and_eq_true, beq_iff_eq] at hreq
    obtain ⟨-, h2, h3, h4, h5, h6, -⟩ := hreq
    simp only [requiredFields, List.all_cons, List.all_nil,
      hid, hothers "imageUri" (by decide), hothers "address" (by decide),
      hothers "latitude" (by decide), hothers "longitude" (by decide),
      hothers "createdAt" (by decide), hothers "title" (by decide),
      hothers "notes" (by decide), hothers "tags" (by decide),
      hothers "weather" (by decide), h2, h3, h4, h5, h6, h,
      show typeofProp (some (.str f)) = "string" from rfl]
    simp
  · simp [hreq] at h

/-- Reassigning the `id` of a record makes `idOf` the new string. -/
theorem idOf_setField {e : Json} (f : String) (h : validateEntry e = true) :
    idOf (setField e "id" (.str f)) = some f := by
  obtain ⟨fs, rfl⟩ := validated_isObj h
  simp [idOf, getField_setField_same]

/-! ### Run lemmas for the store operations under the honest behaviour -/

/-- Decoding a freshly written array of validated entries just sorts it. -/
theorem decodeList_write {es : List Json} (h : es.all validateEntry = true) :
    decodeList (some (.json (.arr es))) = sortEntries es := by
  simp [decodeList, Raw.isEmptyStr, parseRaw, validateEntries, h, asArray]

/-- An invalid entry makes `saveEntry` throw before touching the backend;
the exception is caught and `false` returned with the state untouched. -/
theorem saveEntry_invalid (e : Json) (f : String) (b : Behavior) (s : BState)
    (hval : validateEntry e = false) :
    saveEntry e f b s = (.ok false, s) := by
  simp [saveEntry, tryCatch, throwM, hval, M.pure_apply]

/-- Full description of a `saveEntry` run on a valid entry under the
fault-free behaviour: the (possibly re-identified) entry is appended and
written, and the result is the verification re-read's answer. -/
theorem saveEntry_honest (e : Json) (f : String) (s : BState)
    (hval : validateEntry e = true) :
    saveEntry e f honest s =
      (.ok ((decodeList (some (.json (.arr (decodeList s.store ++
                [entryAfterSave e f (decodeList s.store)]))))).any
              fun x => idOf x == idOf (entryAfterSave e f (decodeList s.store))),
       ⟨some (.json (.arr (decodeList s.store ++ [entryAfterSave e f (decodeList s.store)]))),
        s.gets + 2, s.sets + 1, s.removes⟩) := by
  unfold saveEntry
  simp only [tryCatch, M.bind_apply, hval, Bool.not_true, Bool.false_eq_true, if_false,
    getEntries_honest, setItem_honest]
  cases hW : (decodeList (some (.json (.arr (decodeList s.store ++
      [entryAfterSave e f (decodeList s.store)]))))).any
        fun x => idOf x == idOf (entryAfterSave e f (decodeList s.store)) <;>
    simp [hW, M.pure_apply]

/-- Run of `getEntryById` under the fault-free behaviour. -/
theorem getEntryById_honest (id : String) (s : BState) :
    getEntryById id honest s =
      (.ok (match (decodeList s.store).find? (fun e => idOf e == some id) with
            | some entry => if entry.isFalsy then none else some entry
            | none => none),
       { s with gets := s.gets + 1 }) := by
  unfold getEntryById
  simp only [tryCatch, M.bind_apply, getEntries_honest]
  cases hfind : (decodeList s.store).find? fun e => idOf e == some id with
  | none => simp [hfind, M.pure_apply]
  | some entry => simp [hfind, M.pure_apply]

/-- `find?` returns the element when exactly one element satisfies the
predicate. -/
theorem find?_eq_of_unique {α : Type} {p : α → Bool} {l : List α} {a : α}
    (ha : a ∈ l) (hpa : p a = true) (huniq : ∀ x ∈ l, p x = true → x = a) :
    l.find? p = some a := by
  induction l with
  | nil => simp at ha
  | cons hd t ih =>
    by_cases hph : p hd
    · have : hd = a := huniq hd (by simp) hph
      subst this
      simp [List.find?_cons_of_pos _ hph]
    · rw [List.find?_cons_of_neg _ (by simpa using hph)]
      apply ih
      · rcases List.mem_cons.mp ha with h1 | h1
        · exact absurd (h1 ▸ hpa) (by simpa using hph)
        · exact h1
      · exact fun x hx hpx => huniq x (List.mem_cons_of_mem _ hx) hpx

theorem pair_ok_eq {α : Type} {x y : α} {s t : BState}
    (h : ((Except.ok x : Except String α), s) = (.ok y, t)) : x = y := by
  have := congrArg Prod.fst h
  simpa using this

/-! ### Claim theorems -/

/-- C1: for every entry `e` that passes `validateEntry` and whose id does
not occur in the stored collection, `saveEntry e` returns true under the
fault-free backend, and a subsequent `getEntryById e.id` returns exactly
`e`. -/
theorem claim1_roundtrip (s : BState) (e : Json) (f eid : String)
    (hval : validateEntry e = true)
    (hid : idOf e = some eid)
    (hmiss : ∀ x ∈ decodeList s.store, idOf x ≠ some eid) :
    ∃ s', saveEntry e f honest s = (.ok true, s') ∧
      (getEntryById eid honest s').1 = .ok (some e) := by
  have hnc : ((decodeList s.store).any fun x => idOf x == idOf e) = false := by
    rw [List.any_eq_false]
    intro x hx
    rw [hid]
    simpa using hmiss x hx
  have heas : entryAfterSave e f (decodeList s.store) = e := by
    simp [entryAfterSave, hnc]
  have hall : ((decodeList s.store) ++ [e]).all validateEntry = true := by
    rw [List.all_append, List.all_eq_true.mpr fun x hx => decodeList_validated hx]
    simp [hval]
  have hdec : decodeList (some (.json (.arr ((decodeList s.store) ++ [e]))))
      = sortEntries ((decodeList s.store) ++ [e]) := decodeList_write hall
  have hmem : e ∈ sortEntries ((decodeList s.store) ++ [e]) :=
    mem_sortEntries.mpr (by simp)
  have hany : ((sortEntries ((decodeList s.store) ++ [e])).any
      fun x => idOf x == idOf e) = true :=
    List.any_eq_true.mpr ⟨e, hmem, by simp⟩
  refine ⟨⟨some (.json (.arr ((decodeList s.store) ++ [e]))), s.gets + 2, s.sets + 1,
    s.removes⟩, ?_, ?_⟩
  · rw [saveEntry_honest e f s hval, heas, hdec, hany]
  · rw [getEntryById_honest]
    have hstore : (⟨some (.json (.arr ((decodeList s.store) ++ [e]))), s.gets + 2, s.sets + 1,
        s.removes⟩ : BState).store = some (.json (.arr ((decodeList s.store) ++ [e]))) := rfl
    rw [hstore, hdec]
    have hfind : (sortEntries ((decodeList s.store) ++ [e])).find?
        (fun x => idOf x == some eid) = some e := by
      apply find?_eq_of_unique hmem (by simp [hid])
      intro x hx hpx
      rcases List.mem_append.mp (mem_sortEntries.mp hx) with h1 | h1
      · exact absurd (by simpa using hpx) (hmiss x h1)
      · simpa using h1
    rw [hfind]
    simp [validated_not_falsy hval]

/-- C4: for every backend state and every backend behaviour, whatever list
`getEntries` returns is sorted in descending order of `createdAt`. -/
theorem claim4_sorted (b : Behavior) (s : BState) (l : List Json) (s' : BState)
    (h : getEntries b s = (.ok l, s')) :
    l.Pairwise fun x y => createdAtOf y ≤ createdAtOf x := by
  have hshape : l = [] ∨ ∃ es, l = sortEntries es := by
    rcases hresp : b.onGet s.gets s.store with v | msg
    · rcases v with _ | raw
      · simp only [getEntries, tryCatch, M.bind_apply, getItem, hresp, M.pure_apply] at h
        exact Or.inl (pair_ok_eq h).symm
      · rcases raw with j | g
        · by_cases hv : validateEntries j
          · simp only [getEntries, tryCatch, M.bind_apply, getItem, hresp, Raw.isEmptyStr,
              parseRaw, hv, Bool.not_true, Bool.false_eq_true, if_false, M.pure_apply] at h
            exact Or.inr ⟨asArray j, (pair_ok_eq h).symm⟩
          · simp only [getEntries, tryCatch, M.bind_apply, getItem, hresp, Raw.isEmptyStr,
              parseRaw, hv, Bool.not_false, if_true, M.pure_apply] at h
            exact Or.inl (pair_ok_eq h).symm
        · by_cases hg : g == ""
          · simp only [getEntries, tryCatch, M.bind_apply, getItem, hresp, Raw.isEmptyStr,
              hg, if_true, M.pure_apply] at h
            exact Or.inl (pair_ok_eq h).symm
          · simp only [getEntries, tryCatch, M.bind_apply, getItem, hresp, Raw.isEmptyStr,
              hg, Bool.false_eq_true, if_false, parseRaw, throwM, M.pure_apply] at h
            exact Or.inl (pair_ok_eq h).symm
    · simp only [getEntries, tryCatch, M.bind_apply, getItem, hresp, M.pure_apply] at h
      exact Or.inl (pair_ok_eq h).symm
  rcases hshape with rfl | ⟨es, rfl⟩
  · exact List.Pairwise.nil
  · exact sortEntries_sorted es

/-- C8: removing an id that does not occur in the stored collection
returns false and leaves the stored value untouched, with no write to the
backend (the write counter is unchanged). -/
theorem claim8_remove_missing (s : BState) (id : String)
    (h : ∀ x ∈ decodeList s.store, idOf x ≠ some id) :
    ∃ s', removeEntry id honest s = (.ok false, s') ∧
      s'.store = s.store ∧ s'.sets = s.sets ∧
      decodeList s'.store = decodeList s.store := by
  by_cases hid : id = ""
  · refine ⟨s, ?_, rfl, rfl, rfl⟩
    simp [removeEntry, tryCatch, throwM, hid, M.pure_apply]
  · refine ⟨{ s with gets := s.gets + 1 }, ?_, rfl, rfl, rfl⟩
    have hex : ((decodeList s.store).any fun x => idOf x == some id) = false := by
      rw [List.any_eq_false]
      intro x hx
      simpa using h x hx
    have hid' : (id == "") = false := by simpa using hid
    unfold removeEntry
    simp only [tryCatch, hid', Bool.false_eq_true, if_false, M.bind_apply, getEntries_honest,
      hex, Bool.not_false, if_true, M.pure_apply]

/-- C9: updating a valid entry whose id does not occur in the stored
collection returns false (no upsert) and leaves the stored value
untouched, with no write to the backend. -/
theorem claim9_update_missing (s : BState) (e : Json)
    (hval : validateEntry e = true)
    (h : ∀ x ∈ decodeList s.store, idOf x ≠ idOf e) :
    ∃ s', updateEntry e honest s = (.ok false, s') ∧
      s'.store = s.store ∧ s'.sets = s.sets ∧
      decodeList s'.store = decodeList s.store := by
  refine ⟨{ s with gets := s.gets + 1 }, ?_, rfl, rfl, rfl⟩
  have hfind : ((decodeList s.store).findIdx? fun x => idOf x == idOf e) = none := by
    rw [List.findIdx?_eq_none_iff]
    intro x hx
    simpa using h x hx
  unfold updateEntry
  simp only [tryCatch, hval, Bool.not_true, Bool.false_eq_true, if_false, M.bind_apply,
    getEntries_honest, hfind, M.pure_apply]

/-- C7: with an honest backend, an absent entries key, a raw value that is
not valid JSON, or a decoded value failing `validateEntries` all make
`getEntries` return the empty list rather than fail. -/
theorem claim7_corrupted_storage (s : BState)
    (h : s.store = none ∨ (∃ g, s.store = some (.garbage g)) ∨
         (∃ j, s.store = some (.json j) ∧ validateEntries j = false)) :
    (getEntries honest s).1 = .ok [] := by
  rw [getEntries_honest]
  rcases h with h | ⟨g, h⟩ | ⟨j, h, hv⟩
  · simp [h, decodeList]
  · by_cases hg : g == "" <;> simp [h, decodeList, Raw.isEmptyStr, hg, parseRaw]
  · simp [h, decodeList, Raw.isEmptyStr, parseRaw, hv]

/-- A `tryCatch` whose handler immediately returns a constant never leaves
an exception in its result. -/
theorem tryCatch_pure_ok {α : Type} (body : M α) (c : α) (b : Behavior) (s : BState) :
    ((tryCatch body fun _ => pure c) b s).1.isOk = true := by
  unfold tryCatch
  rcases hb : body b s with ⟨r, s'⟩
  rcases r with a | msg <;> simp [hb, M.pure_apply, Except.isOk, Except.toBool]

theorem setItem_allFault (v : Raw) (s : BState) :
    setItem v allFault s = (.error "io", { s with sets := s.sets + 1 }) := rfl

theorem removeItem_allFault (s : BState) :
    removeItem allFault s = (.error "io", { s with removes := s.removes + 1 }) := rfl

/-- Under the always-faulting backend, `getEntries` swallows the fault and
returns the empty list. -/
theorem getEntries_allFault (s : BState) :
    getEntries allFault s = (.ok [], { s with gets := s.gets + 1 }) := by
  simp only [getEntries, tryCatch, M.bind_apply, getItem, allFault, M.pure_apply]

/-- C6: no public store operation ever propagates an exception, for any
behaviour of the backend; and under the always-faulting backend each
operation returns its normal failure value (empty list, null, false, or
zero). -/
theorem claim6_no_exceptions :
    (∀ (b : Behavior) (s : BState) (e : Json) (f id : String),
      (getEntries b s).1.isOk = true ∧
      (getEntryById id b s).1.isOk = true ∧
      (saveEntry e f b s).1.isOk = true ∧
      (updateEntry e b s).1.isOk = true ∧
      (removeEntry id b s).1.isOk = true ∧
      (clearAllEntries b s).1.isOk = true ∧
      (getEntryCount b s).1.isOk = true) ∧
    (∀ (s : BState) (e : Json) (f id : String),
      (getEntries allFault s).1 = .ok [] ∧
      (getEntryById id allFault s).1 = .ok none ∧
      (saveEntry e f allFault s).1 = .ok false ∧
      (updateEntry e allFault s).1 = .ok false ∧
      (removeEntry id allFault s).1 = .ok false ∧
      (clearAllEntries allFault s).1 = .ok false ∧
      (getEntryCount allFault s).1 = .ok 0) := by
  constructor
  · intro b s e f id
    exact ⟨tryCatch_pure_ok _ _ b s, tryCatch_pure_ok _ _ b s, tryCatch_pure_ok _ _ b s,
      tryCatch_pure_ok _ _ b s, tryCatch_pure_ok _ _ b s, tryCatch_pure_ok _ _ b s,
      tryCatch_pure_ok _ _ b s⟩
  · intro s e f id
    refine ⟨by rw [getEntries_allFault], ?_, ?_, ?_, ?_, ?_, ?_⟩
    · simp only [getEntryById, tryCatch, M.bind_apply, getEntries_allFault, List.find?_nil,
        M.pure_apply]
    · by_cases hval : validateEntry e
      · simp only [saveEntry, tryCatch, hval, Bool.not_true, Bool.false_eq_true, if_false,
          M.bind_apply, getEntries_allFault, setItem_allFault, M.pure_apply]
      · rw [saveEntry_invalid e f allFault s (by simpa using hval)]
    · by_cases hval : validateEntry e
      · simp only [updateEntry, tryCatch, hval, Bool.not_true, Bool.false_eq_true, if_false,
          M.bind_apply, getEntries_allFault, List.findIdx?_nil, M.pure_apply]
      · simp [updateEntry, tryCatch, throwM, M.pure_apply,
          show validateEntry e = false by simpa using hval]
    · by_cases hid : id == ""
      · simp [removeEntry, tryCatch, throwM, M.pure_apply, hid]
      · simp only [removeEntry, tryCatch, hid, Bool.false_eq_true, if_false, M.bind_apply,
          getEntries_allFault, List.any_nil, Bool.not_false, if_true, M.pure_apply]
    · simp only [clearAllEntries, tryCatch, M.bind_apply, removeItem_allFault, M.pure_apply]
    · simp only [getEntryCount, tryCatch, M.bind_apply, getEntries_allFault, List.length_nil,
        M.pure_apply]

/-- A `saveEntry` run on a valid entry whose id collides with a stored one
under the fault-free behaviour: the entry is re-identified to the generated
id, appended and written, and the call returns true. -/
theorem saveEntry_collision (s : BState) (e : Json) (f eid : String)
    (hval : validateEntry e = true)
    (hid : idOf e = some eid)
    (hcoll : ∃ x ∈ decodeList s.store, idOf x = some eid) :
    entryAfterSave e f (decodeList s.store) = setField e "id" (.str f) ∧
    decodeList (some (.json (.arr (decodeList s.store ++ [setField e "id" (.str f)]))))
      = sortEntries (decodeList s.store ++ [setField e "id" (.str f)]) ∧
    saveEntry e f honest s =
      (.ok true,
       ⟨some (.json (.arr (decodeList s.store ++ [setField e "id" (.str f)]))),
        s.gets + 2, s.sets + 1, s.removes⟩) := by
  obtain ⟨x, hx, hxid⟩ := hcoll
  have hany : ((decodeList s.store).any fun y => idOf y == idOf e) = true :=
    List.any_eq_true.mpr ⟨x, hx, by simp [hxid, hid]⟩
  have heas : entryAfterSave e f (decodeList s.store) = setField e "id" (.str f) := by
    simp [entryAfterSave, hany]
  have hall : ((decodeList s.store) ++ [setField e "id" (.str f)]).all validateEntry = true := by
    rw [List.all_append, List.all_eq_true.mpr fun y hy => decodeList_validated hy]
    simp [validate_setField_id f hval]
  have hdec := decodeList_write hall
  have hmem : setField e "id" (.str f) ∈
      sortEntries ((decodeList s.store) ++ [setField e "id" (.str f)]) :=
    mem_sortEntries.mpr (by simp)
  have hany2 : ((sortEntries ((decodeList s.store) ++ [setField e "id" (.str f)])).any
      fun y => idOf y == idOf (setField e "id" (.str f))) = true :=
    List.any_eq_true.mpr ⟨_, hmem, by simp⟩
  refine ⟨heas, hdec, ?_⟩
  rw [saveEntry_honest e f s hval, heas, hdec, hany2]

/-- C3 (amended): when the generated replacement id differs from the
requested id (which the code does not itself guarantee), saving an entry
whose id already occurs stores a new entry under the generated id -- an id
different from the requested one -- returns true, and every pre-existing
entry, in particular the colliding one, is still present unmodified. -/
theorem claim3_collision_regen (s : BState) (e : Json) (f eid : String)
    (hval : validateEntry e = true)
    (hid : idOf e = some eid)
    (hcoll : ∃ x ∈ decodeList s.store, idOf x = some eid)
    (hf : f ≠ eid) :
    ∃ s', saveEntry e f honest s = (.ok true, s') ∧
      s'.store = some (.json (.arr (decodeList s.store ++ [setField e "id" (.str f)]))) ∧
      idOf (setField e "id" (.str f)) = some f ∧
      idOf (setField e "id" (.str f)) ≠ idOf e ∧
      ∀ x ∈ decodeList s.store, x ∈ decodeList s'.store := by
  obtain ⟨heas, hdec, hrun⟩ := saveEntry_collision s e f eid hval hid hcoll
  refine ⟨_, hrun, rfl, idOf_setField f hval, ?_, ?_⟩
  · rw [idOf_setField f hval, hid]
    simpa using hf
  · intro x hx
    show x ∈ decodeList (some (.json (.arr (decodeList s.store ++ [setField e "id" (.str f)]))))
    rw [hdec]
    exact mem_sortEntries.mpr (List.mem_append_left _ hx)

/-- C10: on an id collision, `saveEntry` reassigns the `id` field of the
caller's own entry record before insertion: after the call the caller's
record (`entryAfterSave`) carries the generated id, that re-identified
record is what gets appended and written, and the post-write verification
succeeds because it looks for the regenerated id. -/
theorem claim10_in_place_mutation (s : BState) (e : Json) (f eid : String)
    (hval : validateEntry e = true)
    (hid : idOf e = some eid)
    (hcoll : ∃ x ∈ decodeList s.store, idOf x = some eid) :
    entryAfterSave e f (decodeList s.store) = setField e "id" (.str f) ∧
    idOf (entryAfterSave e f (decodeList s.store)) = some f ∧
    ∃ s', saveEntry e f honest s = (.ok true, s') ∧
      s'.store = some (.json (.arr (decodeList s.store ++
        [entryAfterSave e f (decodeList s.store)]))) := by
  obtain ⟨heas, hdec, hrun⟩ := saveEntry_collision s e f eid hval hid hcoll
  refine ⟨heas, ?_, _, hrun, ?_⟩
  · rw [heas]
    exact idOf_setField f hval
  · rw [heas]

/-- What one honest `saveEntry` does to the decoded collection's ids: if no
stored id equals the generated id, distinctness of ids is preserved, and
every entry of the new collection is an old entry, the saved entry under
its requested id, or the saved entry under the generated id. -/
theorem saveEntry_store_ids (e : Json) (f : String) (s : BState)
    (h1 : ((decodeList s.store).map idOf).Nodup)
    (hf : ∀ x ∈ decodeList s.store, idOf x ≠ some f) :
    ((decodeList (saveEntry e f honest s).2.store).map idOf).Nodup ∧
    (∀ x ∈ decodeList (saveEntry e f honest s).2.store,
      x ∈ decodeList s.store ∨ idOf x = idOf e ∨ idOf x = some f) := by
  by_cases hval : validateEntry e
  case neg =>
    rw [saveEntry_invalid e f honest s (by simpa using hval)]
    exact ⟨h1, fun x hx => Or.inl hx⟩
  case pos =>
    rw [saveEntry_honest e f s hval]
    have hvale1 : validateEntry (entryAfterSave e f (decodeList s.store)) = true := by
      unfold entryAfterSave
      by_cases hany : ((decodeList s.store).any fun y => idOf y == idOf e) <;>
        simp [hany, hval, validate_setField_id]
    have hall : ((decodeList s.store) ++ [entryAfterSave e f (decodeList s.store)]).all
        validateEntry = true := by
      rw [List.all_append, List.all_eq_true.mpr fun y hy => decodeList_validated hy]
      simp [hvale1]
    have hid1 : idOf (entryAfterSave e f (decodeList s.store)) = idOf e ∨
        idOf (entryAfterSave e f (decodeList s.store)) = some f := by
      unfold entryAfterSave
      by_cases hany : ((decodeList s.store).any fun y => idOf y == idOf e)
      · simp only [hany, if_true]
        exact Or.inr (idOf_setField f hval)
      · simp only [hany, Bool.false_eq_true, if_false]
        exact Or.inl (by simp)
    have hnotin : idOf (entryAfterSave e f (decodeList s.store)) ∉
        (decodeList s.store).map idOf := by
      intro hmem
      obtain ⟨y, hy, hyid⟩ := List.mem_map.mp hmem
      rcases hid1 with hcase | hcase
      · rw [hcase] at hyid
        have hany : ((decodeList s.store).any fun z => idOf z == idOf e) = true :=
          List.any_eq_true.mpr ⟨y, hy, by simp [hyid]⟩
        unfold entryAfterSave at hcase
        rw [if_pos hany] at hcase
        rw [idOf_setField f hval] at hcase
        exact hf y hy (by rw [hyid, ← hcase])
      · rw [hcase] at hyid
        exact hf y hy hyid
    constructor
    · show ((decodeList (some (.json (.arr _)))).map idOf).Nodup
      rw [decodeList_write hall]
      have hperm : ((sortEntries ((decodeList s.store) ++
          [entryAfterSave e f (decodeList s.store)])).map idOf).Perm
          (((decodeList s.store) ++ [entryAfterSave e f (decodeList s.store)]).map idOf) :=
        (sortEntries_perm _).map idOf
      rw [hperm.nodup_iff]
      rw [List.map_append]
      rw [List.nodup_append]
      refine ⟨h1, by simp, ?_⟩
      intro a ha hb
      simp only [List.map_cons, List.map_nil, List.mem_cons, List.not_mem_nil, or_false] at hb
      exact hnotin (hb ▸ ha)
    · intro x hx
      rw [show (⟨some (.json (.arr ((decodeList s.store) ++
          [entryAfterSave e f (decodeList s.store)]))), s.gets + 2, s.sets + 1,
          s.removes⟩ : BState).store = some (.json (.arr ((decodeList s.store) ++
          [entryAfterSave e f (decodeList s.store)]))) from rfl,
        decodeList_write hall] at hx
      rcases List.mem_append.mp (mem_sortEntries.mp hx) with hL | hE
      · exact Or.inl hL
      · have hxe : x = entryAfterSave e f (decodeList s.store) := by simpa using hE
        rcases hid1 with hcase | hcase
        · exact Or.inr (Or.inl (hxe ▸ hcase))
        · exact Or.inr (Or.inr (hxe ▸ hcase))

/-- Invariant propagation: a sequence of saves keeps ids pairwise distinct
provided no stored or requested id ever coincides with a generated id. -/
theorem runSaves_nodup (ps : List (Json × String)) (s : BState)
    (h1 : ((decodeList s.store).map idOf).Nodup)
    (h2 : ∀ x ∈ decodeList s.store, ∀ q ∈ ps, idOf x ≠ some q.2)
    (hfresh : (ps.map Prod.snd).Nodup)
    (hdisj : ∀ p ∈ ps, ∀ q ∈ ps, idOf p.1 ≠ some q.2) :
    ((decodeList (runSaves ps s).store).map idOf).Nodup := by
  induction ps generalizing s with
  | nil => simpa [runSaves] using h1
  | cons pf rest ih =>
    obtain ⟨e, f⟩ := pf
    have hf : ∀ x ∈ decodeList s.store, idOf x ≠ some f :=
      fun x hx => h2 x hx (e, f) (List.mem_cons_self _ _)
    obtain ⟨hnd, hmem⟩ := saveEntry_store_ids e f s h1 hf
    show ((decodeList (runSaves rest (saveEntry e f honest s).2).store).map idOf).Nodup
    have hfresh' : f ∉ rest.map Prod.snd ∧ (rest.map Prod.snd).Nodup := by
      simpa [List.nodup_cons] using hfresh
    apply ih
    · exact hnd
    · intro x hx q hq
      rcases hmem x hx with hL | he | hfx
      · exact h2 x hL q (List.mem_cons_of_mem _ hq)
      · rw [he]
        exact hdisj (e, f) (List.mem_cons_self _ _) q (List.mem_cons_of_mem _ hq)
      · rw [hfx]
        intro hc
        have hfq : f = q.2 := by simpa using hc
        exact hfresh'.1 (hfq ▸ List.mem_map_of_mem Prod.snd hq)
    · exact hfresh'.2
    · exact fun p hp q hq => hdisj p (List.mem_cons_of_mem _ hp) q (List.mem_cons_of_mem _ hq)

/-- C2 (amended): for every sequence of `saveEntry` calls from the empty
store under the fault-free backend, the resulting stored collection never
contains two entries with the same id, provided the generated ids are
pairwise distinct and no entry's requested id coincides with any generated
id (the code does not re-check a regenerated id against the collection, so
this proviso is necessary: see the counterexample). -/
theorem claim2_unique_ids (ps : List (Json × String))
    (hfresh : (ps.map Prod.snd).Nodup)
    (hdisj : ∀ p ∈ ps, ∀ q ∈ ps, idOf p.1 ≠ some q.2) :
    ((decodeList (runSaves ps emptyState).store).map idOf).Nodup :=
  runSaves_nodup ps emptyState (by simp [emptyState, decodeList])
    (by simp [emptyState, decodeList]) hfresh hdisj

/-- C5 (amended): a decoded value in which `title` is present but not a
string, `notes` is present but not a string, `tags` is present but not an
array, or `weather` is present with JavaScript `typeof` other than
"object" (so neither a record, `null`, nor an array -- the source's check
admits the latter two) fails `validateEntry`. -/
theorem claim5_optional_fields (v : Json)
    (h : (∃ t, getField v "title" = some t ∧ jsTypeof t ≠ "string") ∨
         (∃ t, getField v "notes" = some t ∧ jsTypeof t ≠ "string") ∨
         (∃ t, getField v "tags" = some t ∧ t.isArr = false) ∨
         (∃ t, getField v "weather" = some t ∧ jsTypeof t ≠ "object")) :
    validateEntry v = false := by
  unfold validateEntry
  split
  · rfl
  · split
    · rfl
    · rcases h with ⟨t, ht, hty⟩ | ⟨t, ht, hty⟩ | ⟨t, ht, hty⟩ | ⟨t, ht, hty⟩ <;>
        simp [optOK, ht, hty]

/-- C5 counterexample: `weather` present but not a structured record (it is
`null`), yet `validateEntry` accepts the value, because JavaScript
`typeof null` is "object". -/
theorem claim5_counterexample :
    getField entryWeatherNull "weather" = some .null ∧
    Json.isRecord .null = false ∧
    validateEntry entryWeatherNull = true :=
  ⟨rfl, rfl, by decide⟩

/-- C2 counterexample: the id regenerated on a collision is not re-checked
against the collection, so when the generated id coincides with an already
stored id (here one that itself has the generated shape), the resulting
collection holds two entries with the same id. -/
theorem claim2_counterexample :
    ¬ ((decodeList (runSaves
        [(entryA, "entry_k1a_aaaaaaa01"), (entryGen, "entry_k2b_bbbbbbb02"),
         (entryA, "entry_k5z_abc123xyz")] emptyState).store).map idOf).Nodup := by
  decide

/-- C3 counterexample: saving an entry whose id already occurs, when the
regenerated id happens to equal the requested id (both of the generated
shape), stores the new entry under exactly the requested id, not a
different one. -/
theorem claim3_counterexample :
    (saveEntry entryGen "entry_k5z_abc123xyz" honest
        ⟨some (.json (.arr [entryGen2])), 0, 0, 0⟩).1 = .ok true ∧
    (saveEntry entryGen "entry_k5z_abc123xyz" honest
        ⟨some (.json (.arr [entryGen2])), 0, 0, 0⟩).2.store
      = some (.json (.arr [entryGen2, entryGen])) ∧
    idOf entryGen2 = some "entry_k5z_abc123xyz" ∧
    idOf entryGen = some "entry_k5z_abc123xyz" :=
  ⟨rfl, rfl, rfl, rfl⟩

/-- Witness for C1 at a concrete input: saving `entryB` over a store
holding only `entryA` succeeds and reads back exactly `entryB`. -/
theorem claim1_roundtrip_witness :
    validateEntry entryB = true ∧
    (∃ s', saveEntry entryB "f1" honest ⟨some (.json (.arr [entryA])), 0, 0, 0⟩
        = (.ok true, s') ∧
      (getEntryById "b" honest s').1 = .ok (some entryB)) :=
  ⟨by decide,
   claim1_roundtrip ⟨some (.json (.arr [entryA])), 0, 0, 0⟩ entryB "f1" "b"
     (by decide) (by decide) (by decide)⟩

/-- Witness for the amended C2 at a concrete run of two saves with
non-colliding generated ids. -/
theorem claim2_unique_ids_witness :
    ((decodeList (runSaves [(entryA, "f1"), (entryA, "f2")] emptyState).store).map idOf).Nodup :=
  claim2_unique_ids [(entryA, "f1"), (entryA, "f2")] (by decide) (by decide)

/-- Witness for the amended C3 at a concrete input: saving `entryA` over a
store already holding `entryA`, with generated id "f9". -/
theorem claim3_collision_regen_witness :
    ∃ s', saveEntry entryA "f9" honest ⟨some (.json (.arr [entryA])), 0, 0, 0⟩
        = (.ok true, s') ∧
      s'.store = some (.json (.arr (decodeList (some (.json (.arr [entryA]))) ++
        [setField entryA "id" (.str "f9")]))) ∧
      idOf (setField entryA "id" (.str "f9")) = some "f9" ∧
      idOf (setField entryA "id" (.str "f9")) ≠ idOf entryA ∧
      ∀ x ∈ decodeList (some (.json (.arr [entryA]))), x ∈ decodeList s'.store :=
  claim3_collision_regen ⟨some (.json (.arr [entryA])), 0, 0, 0⟩ entryA "f9" "a"
    (by decide) (by decide) (by decide) (by decide)

/-- Witness for C4 at a concrete input: a store holding `entryA` then
`entryB` reads back `[entryB, entryA]`, which is sorted by `createdAt`
descending. -/
theorem claim4_sorted_witness :
    ([entryB, entryA] : List Json).Pairwise fun x y => createdAtOf y ≤ createdAtOf x :=
  claim4_sorted honest ⟨some (.json (.arr [entryA, entryB])), 0, 0, 0⟩ [entryB, entryA]
    ⟨some (.json (.arr [entryA, entryB])), 1, 0, 0⟩ rfl

/-- Witness for the amended C5 at a concrete input: `tags` present but a
string is rejected. -/
theorem claim5_optional_fields_witness :
    validateEntry (.obj [("id", .str "a"), ("imageUri", .str "u"), ("address", .str "d"),
      ("latitude", .num 1), ("longitude", .num 2), ("createdAt", .num 3),
      ("tags", .str "x")]) = false :=
  claim5_optional_fields _ (Or.inr (Or.inr (Or.inl ⟨.str "x", rfl, rfl⟩)))

/-- Witness for C7 at a concrete input: the raw string "not json". -/
theorem claim7_corrupted_storage_witness :
    (getEntries honest ⟨some (.garbage "not json"), 0, 0, 0⟩).1 = .ok [] :=
  claim7_corrupted_storage ⟨some (.garbage "not json"), 0, 0, 0⟩
    (Or.inr (Or.inl ⟨"not json", rfl⟩))

/-- Witness for C8 at a concrete input: removing the absent id "zz" from a
store holding `entryA`. -/
theorem claim8_remove_missing_witness :
    ∃ s', removeEntry "zz" honest ⟨some (.json (.arr [entryA])), 0, 0, 0⟩ = (.ok false, s') ∧
      s'.store = some (.json (.arr [entryA])) ∧ s'.sets = 0 ∧
      decodeList s'.store = decodeList (some (.json (.arr [entryA]))) :=
  claim8_remove_missing ⟨some (.json (.arr [entryA])), 0, 0, 0⟩ "zz" (by decide)

/-- Witness for C9 at a concrete input: updating `entryB`, absent from a
store holding `entryA`. -/
theorem claim9_update_missing_witness :
    ∃ s', updateEntry entryB honest ⟨some (.json (.arr [entryA])), 0, 0, 0⟩ = (.ok false, s') ∧
      s'.store = some (.json (.arr [entryA])) ∧ s'.sets = 0 ∧
      decodeList s'.store = decodeList (some (.json (.arr [entryA]))) :=
  claim9_update_missing ⟨some (.json (.arr [entryA])), 0, 0, 0⟩ entryB
    (by decide) (by decide)

/-- Witness for C10 at a concrete input: saving `entryA` over a store
already holding `entryA`, with generated id "f9": the caller's record ends
up carrying id "f9" and that record is what was written. -/
theorem claim10_in_place_mutation_witness :
    entryAfterSave entryA "f9" (decodeList (some (.json (.arr [entryA]))))
        = setField entryA "id" (.str "f9") ∧
    idOf (entryAfterSave entryA "f9" (decodeList (some (.json (.arr [entryA]))))) = some "f9" ∧
    ∃ s', saveEntry entryA "f9" honest ⟨some (.json (.arr [entryA])), 0, 0, 0⟩
        = (.ok true, s') ∧
      s'.store = some (.json (.arr (decodeList (some (.json (.arr [entryA]))) ++
        [entryAfterSave entryA "f9" (decodeList (some (.json (.arr [entryA]))))]))) :=
  claim10_in_place_mutation ⟨some (.json (.arr [entryA])), 0, 0, 0⟩ entryA "f9" "a"
    (by decide) (by decide) (by decide)

end TravelDiary
